import Mathlib

/-!
Verification model of the offline-first sync engine in this repository
(Realm local store + Supabase remote). The definitions below are a shallow
embedding of the sync subsystem:

* `executeWithBackoff` — `RetryEngine.executeWithBackoff` (syncEngine, current
  variant: `maxRetries = 3`, `baseDelay = 2000`). The operation is modelled as
  an oracle `op : Nat → Except Unit α` giving the outcome of each attempt
  (`.error` = the promise rejected). The model returns the final result, the
  list of backoff sleeps performed (in ms), and the number of attempts made.
* `pushChanges` / `pushBody` — `SyncEngine.pushChanges` of the current engine
  variant: scheduler guards (closed realm, `isSyncing`, 3000 ms cooldown),
  per-post media upload + metadata upsert with a per-post try/catch, then the
  likes and comments batch phases restricted to children of locally synced
  posts. Remote/file operation outcomes come from a `PushEnv` oracle;
  operations that throw in the source (`FileSystem.readAsStringAsync`,
  `VideoUtils.uploadVideo`, which rethrows) are `Except`-valued, operations
  that report errors in-band (`supabase.storage.upload`, `supabase.from(..)`
  responses) are `Option`/`Bool`-valued, as in the supabase-js API.
* `pullChanges` — `SyncEngine.pullChanges` of the current variant (watermark
  read/create, insert-if-absent of fetched rows, watermark advance).
* `pruneData` — `SyncEngine.pruneData` of the current variant: tombstone GC
  (30 days), size cap (500 active synced posts, oldest first), orphan sweep.
* `fieldLevelMerge` / `pullMergeUnsyncedPost` — `ConflictResolver` and its
  call site in the older engine variant (`src/app/services/syncEngine.ts`),
  which performs the pull-side field-level merge for unsynced local posts.

Timestamps are epoch milliseconds (`Int`, the value of `Date.getTime()`);
JavaScript `null`/`undefined` are both modelled as `Option.none`, and string
truthiness (`s || d`) is modelled explicitly.
-/

/-- JS truthiness of a nullable string (`undefined`, `null` and `""` are falsy). -/
def optStrTruthy : Option String → Bool
  | none => false
  | some s => s != ""

/-- JS `a || b` on nullable strings. -/

def jsOrOpt (a b : Option String) : Option String :=
  if optStrTruthy a then a else b

/-- JS `s || d` where `s` is a string and `d` a string default. -/

def jsOrStr (s d : String) : String :=
  if s == "" then d else s

/-- JS `a || d` where `a` is a nullable string and `d` a string default. -/

def jsOrOptStr (a : Option String) (d : String) : String :=
  match a with
  | none => d
  | some s => if s == "" then d else s

/-- Local `Post` record (Realm schema fields read by the sync engine). -/

structure Post where
  id : String
  text : String
  timestamp : Int
  mediaType : String
  localUri : Option String
  remoteUrl : Option String
  thumbnailUrl : Option String
  userEmail : String
  isSynced : Bool
  deletedAt : Option Int
  deriving DecidableEq

/-- Local `Like` record. -/

structure Like where
  id : String
  postId : String
  userEmail : String
  isSynced : Bool
  deletedAt : Option Int
  deriving DecidableEq

/-- Local `Comment` record. -/

structure Comment where
  id : String
  postId : String
  userEmail : String
  text : String
  timestamp : Int
  isSynced : Bool
  deletedAt : Option Int
  deriving DecidableEq

/-- The local store: the three entity tables plus the `SystemSettings`
singleton (`none` = the singleton does not exist yet). -/

structure DB where
  posts : List Post
  likes : List Like
  comments : List Comment
  lastSyncTime : Option Int
  deriving DecidableEq

/-- `RetryEngine.maxRetries` of the current engine variant. -/

def maxRetries : Nat := 3

/-- `RetryEngine.baseDelay` (ms). -/

def baseDelay : Nat := 2000

/-- Observable outcome of one `executeWithBackoff` run: the value returned to
the caller (`none` on exhaustion), the backoff sleeps performed in order (ms),
and how many attempts were made. -/

structure RetryOutcome (α : Type) where
  result : Option α
  sleeps : List Nat
  attempts : Nat
  deriving DecidableEq

/-- The retry loop `for (attempt = 0; attempt <= maxRetries; attempt++)`:
`attempt` is the index of the current attempt, the second argument the number
of attempts still allowed. After a failed attempt that is not the last one,
the loop sleeps `baseDelay * 2 ^ attempt` ms. -/

def ewbGo (base : Nat) (op : Nat → Except Unit α) : Nat → Nat → RetryOutcome α
  | _, 0 => ⟨none, [], 0⟩
  | attempt, k + 1 =>
    match op attempt with
    | .ok a => ⟨some a, [], 1⟩
    | .error _ =>
      if k = 0 then ⟨none, [], 1⟩
      else
        let r := ewbGo base op (attempt + 1) k
        ⟨r.result, base * 2 ^ attempt :: r.sleeps, r.attempts + 1⟩

/-- `RetryEngine.executeWithBackoff`: up to `maxRetries + 1 = 4` attempts. -/

def executeWithBackoff (op : Nat → Except Unit α) : RetryOutcome α :=
  ewbGo baseDelay op 0 (maxRetries + 1)

def retryCexOp : Nat → Except Unit Nat :=
  fun j => if j < 3 then .error () else .ok 7

/-- Witness for C4 at a concrete operation: three failures then a success
return `some 7`, with the full backoff schedule 2 s, 4 s, 8 s. -/

structure PostEnv where
  fileExists : Bool
  videoUpload : Except Unit String
  imageRead : Except Unit Unit
  imageUploadErr : Bool
  imageUrl : String
  metaUpsertOk : Bool

/-- Row sent to the remote `posts` table (`postsPayload` in the source). -/

structure PostsPayload where
  id : String
  text : String
  image_url : Option String
  video_url : Option String
  media_type : String
  thumbnail_url : Option String
  timestamp : Int
  user_email : String
  deleted_at : Option Int
  deriving DecidableEq

/-- Build the metadata payload for one post, given the value of the local
`publicUrl` variable at upsert time. -/

def mkPostsPayload (p : Post) (publicUrl : Option String) : PostsPayload :=
  { id := p.id
    text := p.text
    image_url := if p.mediaType == "image" then publicUrl else none
    video_url := if p.mediaType == "video" then publicUrl else none
    media_type := p.mediaType
    thumbnail_url := p.thumbnailUrl
    timestamp := p.timestamp
    user_email := jsOrStr p.userEmail "anon"
    deleted_at := p.deletedAt }

/-- Metadata upsert step at the end of the per-post loop body: the payload is
sent via the retry executor; on success `isSynced` is set in a local write. -/

def upsertPostMeta (env : PostEnv) (p : Post) (publicUrl : Option String) :
    Post × Option PostsPayload :=
  if env.metaUpsertOk then ({ p with isSynced := true }, some (mkPostsPayload p publicUrl))
  else (p, some (mkPostsPayload p publicUrl))

/-- Body of the per-post `try` block of the posts phase: media upload routed
by `mediaType` (a `continue` is modelled by returning the post unchanged with
no payload), then the metadata upsert. `.error` means an uncaught throw
escapes the block. -/

def processPostTry (env : PostEnv) (p : Post) :
    Except Unit (Post × Option PostsPayload) :=
  if p.mediaType == "video" && optStrTruthy p.localUri && !optStrTruthy p.remoteUrl then
    if !env.fileExists then .ok (p, none)
    else
      match env.videoUpload with
      | .error e => .error e
      | .ok url =>
        let p1 := if url != "" then { p with remoteUrl := some url } else p
        .ok (upsertPostMeta env p1 (some url))
  else if p.mediaType == "image" && optStrTruthy p.localUri && !optStrTruthy p.remoteUrl then
    if !env.fileExists then .ok (p, none)
    else
      match env.imageRead with
      | .error e => .error e
      | .ok _ =>
        if env.imageUploadErr then .ok (p, none)
        else .ok (upsertPostMeta env { p with remoteUrl := some env.imageUrl } (some env.imageUrl))
  else .ok (upsertPostMeta env p p.remoteUrl)

/-- One iteration of the posts loop including its `try/catch`: a throw is
caught and the post is skipped for this cycle. -/

def processPost (env : PostEnv) (p : Post) : Post × Option PostsPayload :=
  match processPostTry env p with
  | .ok r => r
  | .error _ => (p, none)

/-- Monadic form of `processPost`: the literal `try`/`catch` of the source. -/

def processPostE (env : PostEnv) (p : Post) : Except Unit (Post × Option PostsPayload) :=
  tryCatch (processPostTry env p) (fun _ => pure (p, none))

/-- Posts phase: iterate the unsynced posts (synced posts are not touched),
collecting the updated records and the metadata payloads sent. -/

def postsPhase (env : String → PostEnv) : List Post → List Post × List PostsPayload
  | [] => ([], [])
  | p :: ps =>
    let rest := postsPhase env ps
    if p.isSynced then (p :: rest.1, rest.2)
    else
      let (p1, pay) := processPost (env p.id) p
      (p1 :: rest.1, pay.toList ++ rest.2)

/-- Posts phase in the `Except` monad, with the per-post `try/catch`. -/

def postsPhaseE (env : String → PostEnv) : List Post → Except Unit (List Post × List PostsPayload)
  | [] => pure ([], [])
  | p :: ps =>
    if p.isSynced then do
      let rest ← postsPhaseE env ps
      pure (p :: rest.1, rest.2)
    else do
      let (p1, pay) ← processPostE (env p.id) p
      let rest ← postsPhaseE env ps
      pure (p1 :: rest.1, pay.toList ++ rest.2)

/-- Ids of the locally synced posts, materialized right after the posts phase
(`syncedPostIds` in the source). -/

def syncedIdsOf (posts : List Post) : List String :=
  (posts.filter (fun p => p.isSynced)).map (fun p => p.id)

/-- Eligibility filter of the likes phase: unsynced, and the parent post is
already locally synced. -/

def likeEligible (sids : List String) (l : Like) : Bool :=
  !l.isSynced && sids.contains l.postId

/-- Row sent to the remote `likes` table (`deleted_at` is present only in the
delete batch). -/

structure LikeRow where
  id : String
  post_id : String
  user_email : String
  deleted_at : Option Int
  deriving DecidableEq

def mkLikeDelRow (l : Like) : LikeRow := ⟨l.id, l.postId, l.userEmail, l.deletedAt⟩

def mkLikeInsRow (l : Like) : LikeRow := ⟨l.id, l.postId, l.userEmail, none⟩

/-- Rows included in the two batch upserts of the likes phase: the
soft-deleted eligible likes, then the active eligible likes. -/

def likeRows (sids : List String) (likes : List Like) : List LikeRow :=
  ((likes.filter (fun l => likeEligible sids l && l.deletedAt.isSome)).map mkLikeDelRow)
    ++ ((likes.filter (fun l => likeEligible sids l && !l.deletedAt.isSome)).map mkLikeInsRow)

/-- Local effect of the likes phase on one like: eligible likes of a batch
whose upsert succeeded are flagged synced; everything else is untouched. -/

def likeUpd (sids : List String) (delOk insOk : Bool) (l : Like) : Like :=
  if likeEligible sids l then
    if l.deletedAt.isSome then (if delOk then { l with isSynced := true } else l)
    else (if insOk then { l with isSynced := true } else l)
  else l

/-- Eligibility filter of the comments phase (same shape as likes). -/

def commentEligible (sids : List String) (c : Comment) : Bool :=
  !c.isSynced && sids.contains c.postId

/-- Row sent to the remote `comments` table. -/

structure CommentRow where
  id : String
  post_id : String
  user_email : String
  text : String
  created_at : Int
  deleted_at : Option Int
  deriving DecidableEq

def mkCommentDelRow (c : Comment) : CommentRow :=
  ⟨c.id, c.postId, c.userEmail, c.text, c.timestamp, c.deletedAt⟩

def mkCommentInsRow (c : Comment) : CommentRow :=
  ⟨c.id, c.postId, c.userEmail, c.text, c.timestamp, none⟩

/-- Rows included in the two batch upserts of the comments phase. -/

def commentRows (sids : List String) (comments : List Comment) : List CommentRow :=
  ((comments.filter (fun c => commentEligible sids c && c.deletedAt.isSome)).map mkCommentDelRow)
    ++ ((comments.filter (fun c => commentEligible sids c && !c.deletedAt.isSome)).map mkCommentInsRow)

/-- Local effect of the comments phase on one comment. -/

def commentUpd (sids : List String) (delOk insOk : Bool) (c : Comment) : Comment :=
  if commentEligible sids c then
    if c.deletedAt.isSome then (if delOk then { c with isSynced := true } else c)
    else (if insOk then { c with isSynced := true } else c)
  else c

/-- Remote outcomes for one push cycle: the per-post operation outcomes
(keyed by post id) and the retry-executor outcomes of the four child batch
upserts. -/

structure PushEnv where
  post : String → PostEnv
  likesDelOk : Bool
  likesInsOk : Bool
  commentsDelOk : Bool
  commentsInsOk : Bool

/-- All rows offered to the remote store during one push cycle. -/

structure PushPays where
  posts : List PostsPayload
  likes : List LikeRow
  comments : List CommentRow
  deriving DecidableEq

/-- Module-level scheduler state (`SyncEngine.private`). -/

structure SchedState where
  lastPushTime : Int
  isSyncing : Bool
  deriving DecidableEq

/-- `PUSH_COOLDOWN` (ms). -/

def PUSH_COOLDOWN : Int := 3000

/-- Outcome of one `pushChanges` invocation: the local store, the scheduler
state, whether the guarded body ran, and the rows sent to the remote store. -/

structure PushResult where
  db : DB
  sched : SchedState
  ran : Bool
  pays : PushPays
  deriving DecidableEq

/-- Result of an invocation that returned at a guard: nothing ran, nothing
was sent, the local store and scheduler state are untouched. -/

def skipResult (db : DB) (st : SchedState) : PushResult :=
  ⟨db, st, false, ⟨[], [], []⟩⟩

/-- The guarded body of `pushChanges`: posts phase, then the likes and
comments phases filtered through the ids of the posts that are locally
synced once the posts phase is over. -/

def pushBody (db : DB) (env : PushEnv) : DB × PushPays :=
  let (posts1, ppays) := postsPhase env.post db.posts
  let sids := syncedIdsOf posts1
  ({ db with
      posts := posts1
      likes := db.likes.map (likeUpd sids env.likesDelOk env.likesInsOk)
      comments := db.comments.map (commentUpd sids env.commentsDelOk env.commentsInsOk) },
    ⟨ppays, likeRows sids db.likes, commentRows sids db.comments⟩)

/-- `SyncEngine.pushChanges`: closed-realm guard, single-flight guard,
cooldown guard, then the body; `lastPushTime` is recorded at entry and
`isSyncing` is cleared in the `finally` scope. -/

def pushChanges (st : SchedState) (db : DB) (env : PushEnv) (now : Int)
    (closed : Bool) : PushResult :=
  if closed then skipResult db st
  else if st.isSyncing then skipResult db st
  else if now - st.lastPushTime < PUSH_COOLDOWN then skipResult db st
  else
    let (db1, pays) := pushBody db env
    ⟨db1, ⟨now, false⟩, true, pays⟩

/-- `pushChanges` in the `Except` monad: a throw escaping the body would
surface here as `.error` (after the `finally` clears `isSyncing`). -/

def pushChangesE (st : SchedState) (db : DB) (env : PushEnv) (now : Int)
    (closed : Bool) : Except Unit PushResult :=
  if closed then pure (skipResult db st)
  else if st.isSyncing then pure (skipResult db st)
  else if now - st.lastPushTime < PUSH_COOLDOWN then pure (skipResult db st)
  else do
    let body ← postsPhaseE env.post db.posts
    let sids := syncedIdsOf body.1
    pure ⟨{ db with
              posts := body.1
              likes := db.likes.map (likeUpd sids env.likesDelOk env.likesInsOk)
              comments := db.comments.map (commentUpd sids env.commentsDelOk env.commentsInsOk) },
          ⟨now, false⟩, true,
          ⟨body.2, likeRows sids db.likes, commentRows sids db.comments⟩⟩

/-- Row returned by the remote `posts` select during pull. `updated_at` is
the server-maintained conflict-resolution timestamp (read by the older
variant's merge, not by the current variant's pull). -/

structure RemoteRow where
  id : String
  text : Option String
  image_url : Option String
  video_url : Option String
  media_type : Option String
  thumbnail_url : Option String
  timestamp : Int
  user_email : Option String
  updated_at : Int
  deriving DecidableEq

/-- Response of the pull-side `posts` select (`data` field of the supabase
response; errors are reported in-band as a null `data`, never thrown). -/

structure PullEnv where
  postsData : Option (List RemoteRow)

/-- Local post created from a pulled row that has no local counterpart. -/

def mkPulledPost (r : RemoteRow) : Post :=
  { id := r.id
    text := (r.text).getD ""
    timestamp := r.timestamp
    mediaType := jsOrOptStr r.media_type "image"
    localUri := none
    remoteUrl := jsOrOpt r.video_url r.image_url
    thumbnailUrl := r.thumbnail_url
    userEmail := jsOrOptStr r.user_email "anon"
    isSynced := true
    deletedAt := none }

/-- `SyncEngine.pullChanges` of the current variant: ensure the
`SystemSettings` singleton exists, then (when the select returned rows)
insert each row that has no local record with that id, and advance the
watermark to `now` in the same write. -/

def pullChanges (db : DB) (env : PullEnv) (now : Int) (closed : Bool) : DB :=
  if closed then db
  else
    let db1 := match db.lastSyncTime with
      | none => { db with lastSyncTime := some 0 }
      | some _ => db
    match env.postsData with
    | none => db1
    | some rows =>
      if rows.length > 0 then
        let posts1 := rows.foldl
          (fun acc r => if acc.any (fun p => p.id == r.id) then acc else acc ++ [mkPulledPost r])
          db1.posts
        { db1 with posts := posts1, lastSyncTime := some now }
      else db1

/-- `RETENTION_DAYS = 30` as milliseconds. -/

def RETENTION_MS : Int := 30 * 24 * 60 * 60 * 1000

/-- `MAX_POSTS` of the current variant. -/

def MAX_POSTS : Nat := 500

/-- Realm predicate `deletedAt < $0`; false when `deletedAt` is null. -/

def tombExpired (cutoff : Int) (dAt : Option Int) : Bool :=
  match dAt with
  | some t => t < cutoff
  | none => false

/-- Tombstone GC: delete every record with `deletedAt < cutoff` and
`isSynced == true`, in all three tables. -/

def gcStep (cutoff : Int) (db : DB) : DB :=
  { db with
    posts := db.posts.filter (fun p => !(tombExpired cutoff p.deletedAt && p.isSynced))
    comments := db.comments.filter (fun c => !(tombExpired cutoff c.deletedAt && c.isSynced))
    likes := db.likes.filter (fun l => !(tombExpired cutoff l.deletedAt && l.isSynced)) }

/-- Posts subject to the size cap: `deletedAt == null AND isSynced == true`. -/

def isActivePost (p : Post) : Bool :=
  p.deletedAt.isNone && p.isSynced

/-- Ascending comparator `(a, b) => a.timestamp - b.timestamp`. -/

def tsLe (a b : Post) : Bool :=
  decide (a.timestamp ≤ b.timestamp)

/-- Ids of the posts the size cap deletes: when the active synced posts
exceed `MAX_POSTS`, the first `count - MAX_POSTS` of them in ascending
timestamp order; otherwise nothing. -/

def capVictimIds (posts : List Post) : List String :=
  let act := posts.filter isActivePost
  if act.length > MAX_POSTS then
    ((act.mergeSort tsLe).take (act.length - MAX_POSTS)).map (fun p => p.id)
  else []

/-- Size cap step: delete the victim posts (Realm deletes the listed objects;
primary keys are unique, so deletion is by id). -/

def capStep (db : DB) : DB :=
  { db with posts := db.posts.filter (fun p => !((capVictimIds db.posts).contains p.id)) }

/-- Orphan sweep: delete every like and comment whose `postId` matches no
remaining post. Runs on all children, tombstoned and unsynced included. -/

def orphanStep (db : DB) : DB :=
  let ids := db.posts.map (fun p => p.id)
  { db with
    comments := db.comments.filter (fun c => ids.contains c.postId)
    likes := db.likes.filter (fun l => ids.contains l.postId) }

/-- `SyncEngine.pruneData` of the current variant, inside one local write:
tombstone GC, then the size cap, then the orphan sweep. -/

def pruneData (db : DB) (now : Int) : DB :=
  orphanStep (capStep (gcStep (now - RETENTION_MS) db))

/-- View of a record as passed to `ConflictResolver.fieldLevelMerge` in the
older engine variant: the scalar fields under merge, the local authored
timestamp, and the server `updated_at` (ms). -/

structure MergeView where
  text : Option String
  image_url : Option String
  timestamp : Option Int
  updated_at : Int
  deriving DecidableEq

/-- Last-write-wins on one field: remote wins iff its `updated_at` is newer
than the local `timestamp` (`local.timestamp?.getTime?.() || 0`). -/

def lwwField (lv rv : MergeView) (f : MergeView → Option String) : Option String :=
  if lv.timestamp.getD 0 < rv.updated_at then f rv else f lv

/-- `ConflictResolver.fieldLevelMerge`: with no `lastSyncVersion` the remote
record is returned as the baseline; otherwise each of `text` and `image_url`
is taken from whichever side changed, with last-write-wins on a two-sided
change. -/

def fieldLevelMerge (lv rv : MergeView) (lastSyncVersion : Option MergeView) : MergeView :=
  match lastSyncVersion with
  | none => rv
  | some prev =>
    let mergedText :=
      if (lv.text != prev.text) && (rv.text != prev.text) then lwwField lv rv (fun m => m.text)
      else if rv.text != prev.text then rv.text
      else lv.text
    let mergedImage :=
      if (lv.image_url != prev.image_url) && (rv.image_url != prev.image_url) then
        lwwField lv rv (fun m => m.image_url)
      else if rv.image_url != prev.image_url then rv.image_url
      else lv.image_url
    { lv with text := mergedText, image_url := mergedImage }

/-- Pull-side merge call site of the older variant for a local post with
unsynced changes: `fieldLevelMerge` is invoked with the local view and the
raw remote row — and no third argument. The returned triple is the value
written back: `(existingPost.text, existingPost.remoteUrl,
existingPost.isSynced)`. -/

def pullMergeUnsyncedPost (existing : Post) (remote : RemoteRow) :
    Option String × Option String × Bool :=
  let lv : MergeView :=
    { text := some existing.text
      image_url := existing.remoteUrl
      timestamp := some existing.timestamp
      updated_at := existing.timestamp }
  let rv : MergeView :=
    { text := remote.text
      image_url := remote.image_url
      timestamp := none
      updated_at := remote.updated_at }
  let merged := fieldLevelMerge lv rv none
  (merged.text, merged.image_url, true)

/-- Local post of the C3 scenario: unsynced, text edited locally to
"local-edit" (the pre-sync baseline text was "orig", baseline image "img0"). -/

def cexMergePost : Post :=
  ⟨"A", "local-edit", 5, "image", none, some "img0", none, "u", false, none⟩

/-- Remote row of the C3 scenario: text untouched since the baseline
("orig"), image changed remotely to "img1", newer `updated_at`. -/

def cexMergeRemote : RemoteRow :=
  ⟨"A", some "orig", some "img1", none, some "image", none, 5, some "u", 10⟩

/-- C3 counterexample: local changed only `text` since the last sync and
remote changed only `image_url`, yet the merge does not keep the local text —
it returns the remote text "orig", losing "local-edit". -/

def wFailPost : Post := ⟨"pv", "t", 1, "video", some "v.mp4", none, none, "e", false, none⟩

/-- Environment of the C2 witness: the existence check fails. -/

def wFailEnv : PostEnv := ⟨false, .ok "u", .ok (), false, "u", true⟩

/-- Witness for C2: the missing-file video post is skipped unchanged with no
payload. -/

def w9DB : DB := ⟨[], [], [], none⟩

/-- All-success environment used by the C9 witness. -/

def w9Env : PushEnv := ⟨fun _ => ⟨true, .ok "u", .ok (), false, "u", true⟩, true, true, true, true⟩

/-- Witness for C9: a first trigger at t = 5000 runs (cooldown satisfied,
not syncing); the second trigger at t = 6000 is within the 3000 ms cooldown
and returns immediately with nothing changed. -/

def w10Post : Post := ⟨"u1", "t", 0, "image", none, none, none, "u", false, some 0⟩

/-- Store of the C10 witness. -/

def w10DB : DB := ⟨[w10Post], [], [], none⟩

/-- Witness for C10: an unsynced (even tombstoned, 30-days-old) post survives
prune unchanged. -/

def youngTombLike : Like := ⟨"l1", "ghost", "u", true, some 86400000⟩

/-- Store of the C7 counterexample. -/

def cexDB7 : DB := ⟨[], [youngTombLike], [], none⟩

/-- C7 counterexample: at `now` = 2 days, the like's tombstone is only one
day old (well under 30 days) and the like is synced, yet prune hard-deletes
it — the orphan sweep removes it because its parent post does not exist, so
the claim "prune hard-deletes a tombstoned synced record only after 30 days"
fails for children. -/

def w7Post : Post := ⟨"op", "t", 0, "image", none, none, none, "u", true, some 0⟩

/-- Young tombstoned synced like of the C7 witness; its parent is `w7Post`. -/

def w7Like : Like := ⟨"wl", "op", "u", true, some 2592000000⟩

/-- Store of the C7 witness. -/

def w7DB : DB := ⟨[w7Post], [w7Like], [], none⟩

/-- Witness for C7 at `now` just past the retention window: the reaped post's
tombstone is indeed older than 30 days, and the young tombstoned like is kept
by the tombstone-GC step. -/

def natId (i : Nat) : String := String.mk (List.replicate i 'a')

def bigPost (i : Nat) : Post :=
  ⟨natId i, "", Int.ofNat i, "image", none, none, none, "u", true, none⟩

/-- C6 witness store: 501 active synced posts, one over the cap. -/

def bigDB : DB := ⟨(List.range 501).map bigPost, [], [], none⟩

def w1PostA : Post := ⟨"pa", "t", 1, "image", none, none, none, "e", false, none⟩

/-- C1 witness post that stays unsynced (missing video file). -/

def w1PostB : Post := ⟨"pb", "t", 1, "video", some "v.mp4", none, none, "e", false, none⟩

/-- C1 witness like on the post that syncs. -/

def w1LikeA : Like := ⟨"la", "pa", "e", false, none⟩

/-- C1 witness like on the post that stays unsynced. -/

def w1LikeB : Like := ⟨"lb", "pb", "e", false, none⟩

/-- C1 witness store. -/

def w1DB : DB := ⟨[w1PostA, w1PostB], [w1LikeA, w1LikeB], [], none⟩

/-- C1 witness environment: file checks fail (blocking the video post) and
every upsert succeeds. -/

def w1Env : PushEnv := ⟨fun _ => ⟨false, .ok "v", .ok (), false, "iu", true⟩, true, true, true, true⟩

/-- Witness for C1: the like row sent for `w1LikeA` references a locally
synced parent, while `w1LikeB` (whose parent stayed unsynced) is deferred
untouched and no sent row carries its parent id. -/

theorem ewbGo_attempts_le (base : Nat) (op : Nat → Except Unit α) :
    ∀ k attempt, (ewbGo base op attempt k).attempts ≤ k := by
  intro k
  induction k with
  | zero => intro attempt; simp [ewbGo]
  | succ k ih =>
    intro attempt
    unfold ewbGo
    cases h : op attempt with
    | ok a => simp
    | error e =>
      by_cases hk : k = 0
      · simp [hk]
      · simp [hk]
        exact ih (attempt + 1)

theorem ewbGo_sleeps_get (base : Nat) (op : Nat → Except Unit α) :
    ∀ k attempt i d, (ewbGo base op attempt k).sleeps[i]? = some d →
      d = base * 2 ^ (attempt + i) := by
  intro k
  induction k with
  | zero => intro attempt i d h; simp [ewbGo] at h
  | succ k ih =>
    intro attempt i d
    unfold ewbGo
    cases hop : op attempt with
    | ok a => intro h; simp at h
    | error e =>
      by_cases hk : k = 0
      · simp [hk]
      · simp only [hk, if_false]
        intro h
        cases i with
        | zero =>
          simp only [List.getElem?_cons_zero, Option.some.injEq] at h
          simp [← h]
        | succ i =>
          simp only [List.getElem?_cons_succ] at h
          rw [show attempt + (i + 1) = attempt + 1 + i from by omega]
          exact ih (attempt + 1) i d h

theorem ewbGo_first_ok (base : Nat) (op : Nat → Except Unit α) :
    ∀ k attempt m a, m < k →
      (∀ j, j < m → op (attempt + j) = .error ()) →
      op (attempt + m) = .ok a →
      (ewbGo base op attempt k).result = some a := by
  intro k
  induction k with
  | zero => intro attempt m a hm; omega
  | succ k ih =>
    intro attempt m a hm hfail hok
    unfold ewbGo
    cases m with
    | zero =>
      simp at hok
      simp [hok]
    | succ m =>
      have h0 : op attempt = .error () := by
        have := hfail 0 (by omega)
        simpa using this
      rw [h0]
      have hk : k ≠ 0 := by omega
      simp [hk]
      apply ih (attempt + 1) m a (by omega)
      · intro j hj
        have := hfail (j + 1) (by omega)
        rw [show attempt + 1 + j = attempt + (j + 1) by omega]
        exact this
      · rw [show attempt + 1 + m = attempt + (m + 1) by omega]
        exact hok

theorem ewbGo_exhaust (base : Nat) (op : Nat → Except Unit α) :
    ∀ k attempt,
      (∀ j, j < k → op (attempt + j) = .error ()) →
      (ewbGo base op attempt k).result = none := by
  intro k
  induction k with
  | zero => intro attempt _; simp [ewbGo]
  | succ k ih =>
    intro attempt hfail
    unfold ewbGo
    have h0 : op attempt = .error () := by simpa using hfail 0 (by omega)
    rw [h0]
    by_cases hk : k = 0
    · simp [hk]
    · simp [hk]
      apply ih (attempt + 1)
      intro j hj
      have := hfail (j + 1) (by omega)
      rw [show attempt + 1 + j = attempt + (j + 1) by omega]
      exact this

/-- C4. The retry executor makes at most 4 total attempts; the sleep before
retry k (k = 1, 2, 3) is 2000 * 2 ^ (k - 1) ms (the i-th recorded sleep,
0-indexed, is 2000 * 2 ^ i); the first attempt that does not throw determines
the returned result; and when all 4 attempts throw, it returns `none` instead
of propagating the error. -/

theorem retry_backoff_spec (op : Nat → Except Unit α) :
    (executeWithBackoff op).attempts ≤ 4
    ∧ (∀ i d, (executeWithBackoff op).sleeps[i]? = some d → d = 2000 * 2 ^ i)
    ∧ (∀ m a, m < 4 → (∀ j, j < m → op j = .error ()) → op m = .ok a →
        (executeWithBackoff op).result = some a)
    ∧ ((∀ j, j < 4 → op j = .error ()) → (executeWithBackoff op).result = none) := by
  refine ⟨ewbGo_attempts_le baseDelay op 4 0, ?_, ?_, ?_⟩
  · intro i d h
    have := ewbGo_sleeps_get baseDelay op 4 0 i d h
    simpa [baseDelay] using this
  · intro m a hm hfail hok
    exact ewbGo_first_ok baseDelay op 4 0 m a hm (by simpa using hfail) (by simpa using hok)
  · intro hfail
    exact ewbGo_exhaust baseDelay op 4 0 (by simpa using hfail)

/-- Concrete oracle for the retry witness: attempts 0, 1, 2 reject, attempt 3
resolves with 7 (the spec scenario "fails 3 times then succeeds"). -/

theorem retry_backoff_spec_witness :
    (executeWithBackoff retryCexOp).result = some 7
    ∧ (executeWithBackoff retryCexOp).sleeps = [2000, 4000, 8000]
    ∧ (executeWithBackoff retryCexOp).attempts ≤ 4 := by
  refine ⟨(retry_backoff_spec retryCexOp).2.2.1 3 7 (by decide)
      (by intro j hj; simp [retryCexOp, hj]) (by rfl), by decide,
    (retry_backoff_spec retryCexOp).1⟩

/-- Outcomes of the remote/file operations consulted while pushing one post:
`fileExists` models `FilePathHelper.exists` (never throws, returns a Bool);
`videoUpload` models `VideoUtils.uploadVideo`, which either returns a public
URL or throws (it rethrows every failure); `imageRead` models
`FileSystem.readAsStringAsync`, which throws on failure; `imageUploadErr`
models the in-band `uploadError` of `supabase.storage.upload`; `imageUrl` the
deterministic public URL returned by `getPublicUrl`; `metaUpsertOk` whether
the retry-wrapped metadata upsert for this post eventually succeeded
(`executeWithBackoff` returned a non-null result). -/

theorem pull_merge_drops_local_text_cex :
    cexMergePost.isSynced = false
    ∧ cexMergePost.text = "local-edit"
    ∧ cexMergeRemote.text = some "orig"
    ∧ cexMergeRemote.image_url = some "img1"
    ∧ (pullMergeUnsyncedPost cexMergePost cexMergeRemote).1 = some "orig"
    ∧ ¬(pullMergeUnsyncedPost cexMergePost cexMergeRemote).1 = some "local-edit" := by
  decide

/-- C3 amended: the pull-side merge call passes no `lastSyncVersion`, so
`fieldLevelMerge` returns the remote record wholesale: the merged record
carries the remote `text` and the remote `image_url` (a local-only text
change is not preserved), and `is_synced` is set to true. -/

theorem pull_merge_returns_remote (existing : Post) (remote : RemoteRow) :
    pullMergeUnsyncedPost existing remote = (remote.text, remote.image_url, true) := rfl

theorem processPostE_ok (env : PostEnv) (p : Post) :
    processPostE env p = .ok (processPost env p) := by
  unfold processPostE processPost
  cases h : processPostTry env p with
  | ok r => simp [tryCatch, tryCatchThe, MonadExceptOf.tryCatch, Except.tryCatch, h]
  | error e => simp [tryCatch, tryCatchThe, MonadExceptOf.tryCatch, Except.tryCatch, h, pure, Except.pure]

theorem postsPhaseE_ok (env : String → PostEnv) :
    ∀ ps, postsPhaseE env ps = .ok (postsPhase env ps) := by
  intro ps
  induction ps with
  | nil => rfl
  | cons p ps ih =>
    by_cases h : p.isSynced
    · simp [postsPhaseE, postsPhase, h, ih, Bind.bind, Except.bind, pure, Except.pure]
    · simp [postsPhaseE, postsPhase, h, ih, processPostE_ok, Bind.bind, Except.bind, pure,
        Except.pure]

theorem pushChangesE_ok (st : SchedState) (db : DB) (env : PushEnv) (now : Int)
    (closed : Bool) :
    pushChangesE st db env now closed = .ok (pushChanges st db env now closed) := by
  unfold pushChangesE pushChanges
  by_cases h1 : closed
  · simp [h1, pure, Except.pure]
  · by_cases h2 : st.isSyncing
    · simp [h1, h2, pure, Except.pure]
    · by_cases h3 : now - st.lastPushTime < PUSH_COOLDOWN
      · simp [h1, h2, h3, pure, Except.pure]
      · simp [h1, h2, h3, postsPhaseE_ok, Bind.bind, Except.bind, pure, Except.pure, pushBody]

theorem processPost_isSynced (env : PostEnv) (p : Post) :
    (processPost env p).1.isSynced
      = (p.isSynced || ((processPost env p).2.isSome && env.metaUpsertOk)) := by
  obtain ⟨fe, vu, ir, iue, iu, mo⟩ := env
  cases fe <;> cases iue <;> cases mo <;> rcases vu with e | url <;> rcases ir with e2 | u2 <;>
    simp [processPost, processPostTry, upsertPostMeta] <;>
    split_ifs <;> simp_all

theorem likeUpd_isSynced (sids : List String) (delOk insOk : Bool) (l : Like) :
    (likeUpd sids delOk insOk l).isSynced
      = (l.isSynced || (likeEligible sids l && (if l.deletedAt.isSome then delOk else insOk))) := by
  unfold likeUpd likeEligible
  split_ifs <;> simp_all [likeEligible]

theorem commentUpd_isSynced (sids : List String) (delOk insOk : Bool) (c : Comment) :
    (commentUpd sids delOk insOk c).isSynced
      = (c.isSynced || (commentEligible sids c && (if c.deletedAt.isSome then delOk else insOk))) := by
  unfold commentUpd commentEligible
  split_ifs <;> simp_all [commentEligible]

/-- C5. The sync routines never propagate an exception: the per-post
`try/catch` absorbs every throw of the posts phase (file reads and the video
uploader are the only throwing operations; remote calls report errors
in-band, and batch upserts go through the retry executor, which returns
`none` instead of throwing), so `pushChanges` always returns `.ok`; and a
record's `isSynced` flag is advanced exactly when its own upsert succeeded,
so failures surface only as records keeping `isSynced = false`. `pullChanges`
and `pruneData` contain no throwing operation and are total functions of the
state by construction. -/

theorem sync_routines_never_throw :
    (∀ (env : PostEnv) (p : Post), processPostE env p = .ok (processPost env p))
    ∧ (∀ (st : SchedState) (db : DB) (env : PushEnv) (now : Int) (closed : Bool),
        pushChangesE st db env now closed = .ok (pushChanges st db env now closed))
    ∧ (∀ (env : PostEnv) (p : Post),
        (processPost env p).1.isSynced
          = (p.isSynced || ((processPost env p).2.isSome && env.metaUpsertOk)))
    ∧ (∀ (sids : List String) (delOk insOk : Bool) (l : Like),
        (likeUpd sids delOk insOk l).isSynced
          = (l.isSynced || (likeEligible sids l && (if l.deletedAt.isSome then delOk else insOk))))
    ∧ (∀ (sids : List String) (delOk insOk : Bool) (c : Comment),
        (commentUpd sids delOk insOk c).isSynced
          = (c.isSynced
              || (commentEligible sids c && (if c.deletedAt.isSome then delOk else insOk)))) :=
  ⟨processPostE_ok, pushChangesE_ok, processPost_isSynced, likeUpd_isSynced, commentUpd_isSynced⟩

theorem postsPhase_fst (env : String → PostEnv) :
    ∀ ps, (postsPhase env ps).1
      = ps.map (fun p => if p.isSynced then p else (processPost (env p.id) p).1) := by
  intro ps
  induction ps with
  | nil => rfl
  | cons p ps ih =>
    by_cases h : p.isSynced <;> simp [postsPhase, h, ih]

/-- C2. During the posts phase, an unsynced post with a local uri and no
remote url whose media upload fails — file missing, a throwing upload
(video), a throwing file read or an in-band upload error (image) — is left
completely unchanged (no `isSynced` advance, no `remoteUrl` write) and no
metadata payload is built for it; and the loop handles every post
independently, so it continues with the next post. -/

theorem push_upload_failure_skips_post (env : PostEnv) (p : Post)
    (_hu : p.isSynced = false)
    (hloc : optStrTruthy p.localUri = true)
    (hrem : optStrTruthy p.remoteUrl = false)
    (hfail :
      (p.mediaType = "video" ∧ (env.fileExists = false ∨ env.videoUpload = .error ()))
      ∨ (p.mediaType = "image" ∧
          (env.fileExists = false ∨ env.imageRead = .error () ∨ env.imageUploadErr = true))) :
    processPost env p = (p, none)
    ∧ ∀ (e : String → PostEnv) (ps : List Post),
        (postsPhase e ps).1
          = ps.map (fun q => if q.isSynced then q else (processPost (e q.id) q).1) := by
  refine ⟨?_, fun e ps => postsPhase_fst e ps⟩
  rcases hfail with ⟨hmt, hf⟩ | ⟨hmt, hf⟩
  · rcases hf with hfe | hvu
    · simp [processPost, processPostTry, hmt, hloc, hrem, hfe]
    · cases hfe : env.fileExists <;>
        simp [processPost, processPostTry, hmt, hloc, hrem, hfe, hvu]
  · rcases hf with hfe | hir | hiu
    · simp [processPost, processPostTry, hmt, hloc, hrem, hfe]
    · cases hfe : env.fileExists <;>
        simp [processPost, processPostTry, hmt, hloc, hrem, hfe, hir]
    · cases hfe : env.fileExists <;> rcases hird : env.imageRead with e | u <;>
        simp [processPost, processPostTry, hmt, hloc, hrem, hfe, hird, hiu]

/-- Post of the C2 witness: unsynced video post whose file is missing. -/

theorem push_upload_failure_skips_post_witness :
    processPost wFailEnv wFailPost = (wFailPost, none) :=
  (push_upload_failure_skips_post wFailEnv wFailPost rfl (by decide) (by decide)
    (.inl ⟨rfl, .inl rfl⟩)).1

/-- C9. Scheduler single-flight and cooldown: an invocation that starts while
`isSyncing` is set returns immediately with nothing run and nothing changed;
an invocation that ran leaves `lastPushTime = now` and `isSyncing = false`
(every exit path clears the flag); and a second invocation less than 3000 ms
after a first invocation that ran returns immediately, so the push body
executes at most once. -/

theorem trigger_push_single_flight :
    (∀ (st : SchedState) (db : DB) (env : PushEnv) (now : Int) (closed : Bool),
        st.isSyncing = true → pushChanges st db env now closed = skipResult db st)
    ∧ (∀ (st : SchedState) (db : DB) (env : PushEnv) (now : Int) (closed : Bool),
        (pushChanges st db env now closed).ran = true →
        (pushChanges st db env now closed).sched = ⟨now, false⟩)
    ∧ (∀ (st : SchedState) (db : DB) (env : PushEnv) (t1 : Int) (closed : Bool)
        (db2 : DB) (env2 : PushEnv) (t2 : Int) (closed2 : Bool),
        (pushChanges st db env t1 closed).ran = true → t2 - t1 < PUSH_COOLDOWN →
        pushChanges (pushChanges st db env t1 closed).sched db2 env2 t2 closed2
          = skipResult db2 (pushChanges st db env t1 closed).sched) := by
  refine ⟨?_, ?_, ?_⟩
  · intro st db env now closed h
    unfold pushChanges
    split_ifs <;> simp_all
  · intro st db env now closed h
    unfold pushChanges at *
    split_ifs at * <;> simp_all [skipResult]
  · intro st db env t1 closed db2 env2 t2 closed2 hran hcool
    have hs : (pushChanges st db env t1 closed).sched = ⟨t1, false⟩ := by
      unfold pushChanges at *
      split_ifs at * <;> simp_all [skipResult]
    rw [hs]
    unfold pushChanges
    split_ifs <;> rfl

/-- Empty store used by the C9 witness. -/

theorem trigger_push_single_flight_witness :
    pushChanges (pushChanges ⟨0, false⟩ w9DB w9Env 5000 false).sched w9DB w9Env 6000 false
      = skipResult w9DB (pushChanges ⟨0, false⟩ w9DB w9Env 5000 false).sched :=
  trigger_push_single_flight.2.2 ⟨0, false⟩ w9DB w9Env 5000 false w9DB w9Env 6000 false
    (by decide) (by decide)

/-- C8. After prune, every remaining like and every remaining comment
references an existing local post: the orphan sweep is the final step and
filters all children — tombstoned and unsynced ones included — against the
ids of the posts that survived tombstone GC and the size cap. -/

theorem prune_no_orphans (db : DB) (now : Int) :
    ((pruneData db now).likes.all
        (fun l => (pruneData db now).posts.any (fun p => p.id == l.postId))
      && (pruneData db now).comments.all
        (fun c => (pruneData db now).posts.any (fun p => p.id == c.postId))) = true := by
  simp only [pruneData, orphanStep, Bool.and_eq_true, List.all_eq_true]
  constructor
  · intro l hl
    have h2 := (List.mem_filter.mp hl).2
    rw [List.elem_iff] at h2
    obtain ⟨p, hp, hpid⟩ := List.mem_map.mp h2
    simp only [List.any_eq_true]
    exact ⟨p, hp, by simp [hpid]⟩
  · intro c hc
    have h2 := (List.mem_filter.mp hc).2
    rw [List.elem_iff] at h2
    obtain ⟨p, hp, hpid⟩ := List.mem_map.mp h2
    simp only [List.any_eq_true]
    exact ⟨p, hp, by simp [hpid]⟩

theorem contains_eq_false (l : List String) (a : String) :
    l.contains a = false ↔ a ∉ l := by
  rw [← Bool.not_eq_true]
  exact not_iff_not.mpr List.elem_iff

theorem gc_filter_active (c : Int) (db : DB) :
    (gcStep c db).posts.filter isActivePost = db.posts.filter isActivePost := by
  simp only [gcStep]
  rw [List.filter_filter]
  apply List.filter_congr
  intro p _
  cases hd : p.deletedAt <;> simp [isActivePost, tombExpired, hd]

theorem capVictimIds_not_mem_of_not_active (posts : List Post)
    (hnd : (posts.map (fun p => p.id)).Nodup) (p : Post) (hp : p ∈ posts)
    (hna : isActivePost p = false) : p.id ∉ capVictimIds posts := by
  intro hmem
  simp only [capVictimIds] at hmem
  by_cases hgt : (posts.filter isActivePost).length > MAX_POSTS
  · rw [if_pos hgt] at hmem
    obtain ⟨y, hy, hyid⟩ := List.mem_map.mp hmem
    have hys : y ∈ (posts.filter isActivePost).mergeSort tsLe :=
      List.Sublist.mem hy (List.take_sublist _ _)
    have hyact : y ∈ posts.filter isActivePost :=
      (List.mergeSort_perm _ _).mem_iff.mp hys
    have hyp : y ∈ posts := (List.mem_filter.mp hyact).1
    have heq : y = p := List.inj_on_of_nodup_map hnd hyp hp hyid
    rw [heq] at hyact
    have := (List.mem_filter.mp hyact).2
    rw [hna] at this
    simp at this
  · rw [if_neg hgt] at hmem
    exact absurd hmem (List.not_mem_nil _)

/-- C10. Prune never deletes an unsynced post: tombstone GC and the size cap
both select only `isSynced == true` posts and the orphan sweep does not touch
posts, so every unsynced post survives prune with all fields unchanged. -/

theorem prune_preserves_unsynced_posts (db : DB) (now : Int)
    (hnd : (db.posts.map (fun p => p.id)).Nodup)
    (p : Post) (hp : p ∈ db.posts) (hu : p.isSynced = false) :
    p ∈ (pruneData db now).posts := by
  have hgc : p ∈ (gcStep (now - RETENTION_MS) db).posts :=
    List.mem_filter.mpr ⟨hp, by simp [hu]⟩
  have hgnd : ((gcStep (now - RETENTION_MS) db).posts.map (fun q => q.id)).Nodup :=
    List.Nodup.sublist (List.Sublist.map _ (List.filter_sublist _)) hnd
  have hna : isActivePost p = false := by simp [isActivePost, hu]
  have hnv := capVictimIds_not_mem_of_not_active _ hgnd p hgc hna
  simp only [pruneData, orphanStep, capStep]
  exact List.mem_filter.mpr ⟨hgc, by
    rw [Bool.not_eq_true']
    exact (contains_eq_false _ _).mpr hnv⟩

/-- Tombstoned unsynced post of the C10 witness. -/

theorem prune_preserves_unsynced_posts_witness :
    w10Post ∈ (pruneData w10DB 9999999999).posts :=
  prune_preserves_unsynced_posts w10DB 9999999999 (by decide) w10Post (by decide) rfl

/-- Young tombstoned synced like whose parent post does not exist (C7
counterexample). Its tombstone is one day old. -/

theorem prune_deletes_young_tombstoned_like :
    youngTombLike.isSynced = true
    ∧ youngTombLike.deletedAt = some 86400000
    ∧ (172800000 : Int) - 86400000 < RETENTION_MS
    ∧ (pruneData cexDB7 172800000).likes = [] := by decide

/-- C7 amended: a tombstoned synced Post is hard-deleted by prune only when
its tombstone is older than 30 days, and the tombstone-GC step hard-deletes
no record — post, like or comment — that is unsynced or whose tombstone is at
most 30 days old; the orphan sweep, however, may still delete a like or
comment of any age whose parent post is gone. -/

theorem prune_tombstone_retention (db : DB) (now : Int)
    (hnd : (db.posts.map (fun p => p.id)).Nodup) :
    (∀ p ∈ db.posts, ∀ t : Int, p.deletedAt = some t → p.isSynced = true →
        p ∉ (pruneData db now).posts → RETENTION_MS < now - t)
    ∧ (∀ p ∈ db.posts,
        p.isSynced = false ∨ (∀ t : Int, p.deletedAt = some t → now - t ≤ RETENTION_MS) →
        p ∈ (gcStep (now - RETENTION_MS) db).posts)
    ∧ (∀ l ∈ db.likes,
        l.isSynced = false ∨ (∀ t : Int, l.deletedAt = some t → now - t ≤ RETENTION_MS) →
        l ∈ (gcStep (now - RETENTION_MS) db).likes)
    ∧ (∀ c ∈ db.comments,
        c.isSynced = false ∨ (∀ t : Int, c.deletedAt = some t → now - t ≤ RETENTION_MS) →
        c ∈ (gcStep (now - RETENTION_MS) db).comments) := by
  refine ⟨?_, ?_, ?_, ?_⟩
  · intro p hp t hdt hsy hnotin
    by_contra hle
    apply hnotin
    have hgc : p ∈ (gcStep (now - RETENTION_MS) db).posts := by
      refine List.mem_filter.mpr ⟨hp, ?_⟩
      have : ¬(t < now - RETENTION_MS) := by omega
      simp [tombExpired, hdt, this]
    have hgnd : ((gcStep (now - RETENTION_MS) db).posts.map (fun q => q.id)).Nodup :=
      List.Nodup.sublist (List.Sublist.map _ (List.filter_sublist _)) hnd
    have hna : isActivePost p = false := by simp [isActivePost, hdt]
    have hnv := capVictimIds_not_mem_of_not_active _ hgnd p hgc hna
    simp only [pruneData, orphanStep, capStep]
    exact List.mem_filter.mpr ⟨hgc, by
    rw [Bool.not_eq_true']
    exact (contains_eq_false _ _).mpr hnv⟩
  · intro p hp h
    refine List.mem_filter.mpr ⟨hp, ?_⟩
    rcases h with h | h
    · simp [h]
    · cases hdt : p.deletedAt with
      | none => simp [tombExpired, hdt]
      | some t =>
        have := h t hdt
        have : ¬(t < now - RETENTION_MS) := by omega
        simp [tombExpired, hdt, this]
  · intro l hl h
    refine List.mem_filter.mpr ⟨hl, ?_⟩
    rcases h with h | h
    · simp [h]
    · cases hdt : l.deletedAt with
      | none => simp [tombExpired, hdt]
      | some t =>
        have := h t hdt
        have : ¬(t < now - RETENTION_MS) := by omega
        simp [tombExpired, hdt, this]
  · intro c hc h
    refine List.mem_filter.mpr ⟨hc, ?_⟩
    rcases h with h | h
    · simp [h]
    · cases hdt : c.deletedAt with
      | none => simp [tombExpired, hdt]
      | some t =>
        have := h t hdt
        have : ¬(t < now - RETENTION_MS) := by omega
        simp [tombExpired, hdt, this]

/-- Old tombstoned synced post of the C7 witness (tombstone at epoch 0). -/

theorem prune_tombstone_retention_witness :
    RETENTION_MS < (2592000001 : Int) - 0
    ∧ w7Like ∈ (gcStep (2592000001 - RETENTION_MS) w7DB).likes := by
  have h := prune_tombstone_retention w7DB 2592000001 (by decide)
  refine ⟨h.1 w7Post (by decide) 0 rfl rfl (by decide), ?_⟩
  refine h.2.2.1 w7Like (by decide) (.inr ?_)
  intro t ht
  have : t = 2592000000 := by
    have := ht
    simp [w7Like] at this
    omega
  rw [this]
  decide

theorem tsLe_trans : ∀ a b c : Post, tsLe a b = true → tsLe b c = true → tsLe a c = true := by
  intro a b c
  simp only [tsLe, decide_eq_true_eq]
  omega

theorem tsLe_total : ∀ a b : Post, (tsLe a b || tsLe b a) = true := by
  intro a b
  simp only [tsLe, Bool.or_eq_true, decide_eq_true_eq]
  omega

theorem capVictims_spec (posts : List Post)
    (hnd : (posts.map (fun p => p.id)).Nodup)
    (hgt : (posts.filter isActivePost).length > MAX_POSTS) :
    (((posts.filter (fun p => !((capVictimIds posts).contains p.id))).filter isActivePost).length
        = MAX_POSTS)
    ∧ (capVictimIds posts).length = (posts.filter isActivePost).length - MAX_POSTS
    ∧ (∀ p ∈ posts.filter isActivePost, p.id ∈ capVictimIds posts →
        ∀ q ∈ posts.filter (fun p => !((capVictimIds posts).contains p.id)),
          isActivePost q = true → p.timestamp ≤ q.timestamp) := by
  set act := posts.filter isActivePost with hact
  set s := act.mergeSort tsLe with hsdef
  set k := act.length - MAX_POSTS with hk
  have hvic : capVictimIds posts = (s.take k).map (fun p => p.id) := by
    simp only [capVictimIds, ← hact, if_pos hgt, ← hsdef, ← hk]
  have hperm : s.Perm act := List.mergeSort_perm act tsLe
  have hslen : s.length = act.length := hperm.length_eq
  have hact_nd : (act.map (fun p => p.id)).Nodup :=
    List.Nodup.sublist (List.Sublist.map _ (List.filter_sublist _)) hnd
  have hs_nd : (s.map (fun p => p.id)).Nodup := ((hperm.map _).nodup_iff).mpr hact_nd
  have hsplit : s.take k ++ s.drop k = s := List.take_append_drop k s
  have hids_split : (s.take k).map (fun p => p.id) ++ (s.drop k).map (fun p => p.id)
      = s.map (fun p => p.id) := by rw [← List.map_append, hsplit]
  have hdisj : ∀ x ∈ s.drop k, x.id ∉ (s.take k).map (fun p => p.id) := by
    intro x hx hmem
    have hnd2 := hs_nd
    rw [← hids_split] at hnd2
    rcases List.nodup_append.mp hnd2 with ⟨_, _, hdj⟩
    exact hdj hmem (List.mem_map_of_mem _ hx)
  have hfilter_take :
      (s.take k).filter (fun p => !((capVictimIds posts).contains p.id)) = [] := by
    rw [hvic]
    apply List.filter_eq_nil_iff.mpr
    intro x hx
    have hmem : x.id ∈ (s.take k).map (fun p => p.id) := List.mem_map_of_mem _ hx
    have hcon : ((s.take k).map (fun p => p.id)).contains x.id = true := List.elem_iff.mpr hmem
    intro hcontra
    rw [Bool.not_eq_true'] at hcontra
    rw [hcontra] at hcon
    cases hcon
  have hfilter_drop :
      (s.drop k).filter (fun p => !((capVictimIds posts).contains p.id)) = s.drop k := by
    rw [hvic]
    apply List.filter_eq_self.mpr
    intro x hx
    rw [Bool.not_eq_true']
    exact (contains_eq_false _ _).mpr (hdisj x hx)
  have hsurv :
      (posts.filter (fun p => !((capVictimIds posts).contains p.id))).filter isActivePost
        = act.filter (fun p => !((capVictimIds posts).contains p.id)) := by
    rw [hact, List.filter_filter, List.filter_filter]
    apply List.filter_congr
    intro a _
    exact Bool.and_comm _ _
  have hsfilter : s.filter (fun p => !((capVictimIds posts).contains p.id)) = s.drop k := by
    conv_lhs => rw [← hsplit]
    rw [List.filter_append, hfilter_take, hfilter_drop, List.nil_append]
  have hpermf :
      (act.filter (fun p => !((capVictimIds posts).contains p.id))).Perm (s.drop k) := by
    rw [← hsfilter]
    exact (hperm.filter _).symm
  refine ⟨?_, ?_, ?_⟩
  · rw [hsurv, hpermf.length_eq, List.length_drop]
    omega
  · rw [hvic, List.length_map, List.length_take]
    omega
  · intro p hp hpv q hq hqa
    rw [hvic] at hpv
    obtain ⟨y, hy, hyid⟩ := List.mem_map.mp hpv
    have hys : y ∈ s := List.Sublist.mem hy (List.take_sublist _ _)
    have hps : p ∈ s := hperm.mem_iff.mpr hp
    have hyact : y ∈ posts := (List.mem_filter.mp ((hperm.mem_iff).mp hys)).1
    have hpact : p ∈ posts := (List.mem_filter.mp hp).1
    have heq : y = p := by
      have : (s.map (fun r => r.id)).Nodup := hs_nd
      exact List.inj_on_of_nodup_map this hys hps hyid
    have hptake : p ∈ s.take k := heq ▸ hy
    have hqnv := (List.mem_filter.mp hq).2
    have hqact : q ∈ act := List.mem_filter.mpr ⟨(List.mem_filter.mp hq).1, hqa⟩
    have hqs : q ∈ s := hperm.mem_iff.mpr hqact
    have hqdrop : q ∈ s.drop k := by
      rcases (List.mem_append.mp (hsplit ▸ hqs)) with h | h
      · exfalso
        have : q.id ∈ (s.take k).map (fun p => p.id) := List.mem_map_of_mem _ h
        rw [← hvic] at this
        rw [Bool.not_eq_true'] at hqnv
        exact (contains_eq_false _ _).mp hqnv this
      · exact h
    have hsort : List.Pairwise (fun a b => tsLe a b = true) s :=
      List.sorted_mergeSort tsLe_trans tsLe_total act
    rw [← hsplit] at hsort
    rcases List.pairwise_append.mp hsort with ⟨_, _, hcross⟩
    have := hcross p hptake q hqdrop
    simpa [tsLe] using this

/-- C6. After prune, at most 500 active synced posts remain; when the cap was
exceeded, exactly 500 remain, the number of deleted victims equals the
excess, and every victim is no newer than every surviving active post (the
oldest posts by timestamp are the ones deleted). -/

theorem prune_size_cap (db : DB) (now : Int)
    (hnd : (db.posts.map (fun p => p.id)).Nodup) :
    ((pruneData db now).posts.filter isActivePost).length ≤ MAX_POSTS
    ∧ ((db.posts.filter isActivePost).length > MAX_POSTS →
        ((pruneData db now).posts.filter isActivePost).length = MAX_POSTS
        ∧ (capVictimIds (gcStep (now - RETENTION_MS) db).posts).length
            = (db.posts.filter isActivePost).length - MAX_POSTS
        ∧ ∀ p ∈ db.posts.filter isActivePost,
            p.id ∈ capVictimIds (gcStep (now - RETENTION_MS) db).posts →
            ∀ q ∈ (pruneData db now).posts, isActivePost q = true →
              p.timestamp ≤ q.timestamp) := by
  have hposts : (pruneData db now).posts
      = (gcStep (now - RETENTION_MS) db).posts.filter
          (fun p => !((capVictimIds (gcStep (now - RETENTION_MS) db).posts).contains p.id)) := by
    simp [pruneData, orphanStep, capStep]
  have hgnd : ((gcStep (now - RETENTION_MS) db).posts.map (fun p => p.id)).Nodup :=
    List.Nodup.sublist (List.Sublist.map _ (List.filter_sublist _)) hnd
  have hgact : (gcStep (now - RETENTION_MS) db).posts.filter isActivePost
      = db.posts.filter isActivePost := gc_filter_active _ _
  by_cases hgt : (db.posts.filter isActivePost).length > MAX_POSTS
  · have hspec := capVictims_spec (gcStep (now - RETENTION_MS) db).posts hgnd
      (by rw [hgact]; exact hgt)
    rw [hgact] at hspec
    refine ⟨by rw [hposts, hspec.1], fun _ => ⟨by rw [hposts, hspec.1], hspec.2.1, ?_⟩⟩
    intro p hp hpv q hq hqa
    exact hspec.2.2 p hp hpv q (hposts ▸ hq) hqa
  · have hvic : capVictimIds (gcStep (now - RETENTION_MS) db).posts = [] := by
      simp only [capVictimIds, hgact, if_neg hgt]
    have hkeep : (pruneData db now).posts = (gcStep (now - RETENTION_MS) db).posts := by
      rw [hposts, hvic]
      apply List.filter_eq_self.mpr
      intro x _
      simp [List.contains]
    constructor
    · rw [hkeep, hgact]
      omega
    · intro h
      exact absurd h hgt

/-- Distinct ids for the C6 witness store. -/

theorem natId_inj : Function.Injective natId := by
  intro a b h
  have h2 : List.replicate a 'a' = List.replicate b 'a' := congrArg String.data h
  have h3 := congrArg List.length h2
  simpa using h3

/-- Active synced post number `i` of the C6 witness store. -/

theorem bigDB_nodup : (bigDB.posts.map (fun p => p.id)).Nodup := by
  have h : bigDB.posts.map (fun p => p.id) = (List.range 501).map natId := by
    simp only [bigDB, List.map_map]
    rfl
  rw [h]
  exact List.Nodup.map natId_inj (List.nodup_range 501)

set_option maxRecDepth 4000 in
theorem bigDB_count : (bigDB.posts.filter isActivePost).length = 501 := by
  have h : bigDB.posts.filter isActivePost = bigDB.posts := by
    apply List.filter_eq_self.mpr
    intro p hp
    obtain ⟨i, _, rfl⟩ := List.mem_map.mp hp
    rfl
  rw [h]
  show ((List.range 501).map bigPost).length = 501
  rw [List.length_map, List.length_range]

/-- Witness for C6: pruning a store of 501 active synced posts leaves exactly
500 of them. -/

theorem prune_size_cap_witness :
    ((pruneData bigDB 0).posts.filter isActivePost).length = MAX_POSTS :=
  ((prune_size_cap bigDB 0 bigDB_nodup).2 (by rw [bigDB_count]; decide)).1

theorem mem_syncedIdsOf (posts : List Post) (sid : String) :
    sid ∈ syncedIdsOf posts ↔ ∃ p, p ∈ posts ∧ p.isSynced = true ∧ p.id = sid := by
  unfold syncedIdsOf
  rw [List.mem_map]
  constructor
  · rintro ⟨p, hp, rfl⟩
    rcases List.mem_filter.mp hp with ⟨h1, h2⟩
    exact ⟨p, h1, h2, rfl⟩
  · rintro ⟨p, h1, h2, rfl⟩
    exact ⟨p, List.mem_filter.mpr ⟨h1, h2⟩, rfl⟩

theorem likeRows_parent (sids : List String) (likes : List Like) :
    ∀ row ∈ likeRows sids likes, sids.contains row.post_id = true := by
  intro row hrow
  rcases List.mem_append.mp hrow with h | h <;>
  · obtain ⟨l, hl, rfl⟩ := List.mem_map.mp h
    have hf := (List.mem_filter.mp hl).2
    rw [Bool.and_eq_true] at hf
    obtain ⟨he, _⟩ := hf
    unfold likeEligible at he
    rw [Bool.and_eq_true] at he
    exact he.2

theorem commentRows_parent (sids : List String) (comments : List Comment) :
    ∀ row ∈ commentRows sids comments, sids.contains row.post_id = true := by
  intro row hrow
  rcases List.mem_append.mp hrow with h | h <;>
  · obtain ⟨c, hc2, rfl⟩ := List.mem_map.mp h
    have hf := (List.mem_filter.mp hc2).2
    rw [Bool.and_eq_true] at hf
    obtain ⟨he, _⟩ := hf
    unfold commentEligible at he
    rw [Bool.and_eq_true] at he
    exact he.2

/-- C1. Parent-before-child within a push cycle: every like row and every
comment row included in a child batch upsert references a post that is
locally marked synced when the batch is formed (right after the posts phase);
an unsynced child whose parent is not synced at that moment is deferred — its
local record is left exactly as it was and no row of any child batch carries
its `post_id`. -/

theorem push_parent_before_child (db : DB) (env : PushEnv) :
    ((pushBody db env).1.likes
      = db.likes.map
          (likeUpd (syncedIdsOf (pushBody db env).1.posts) env.likesDelOk env.likesInsOk))
    ∧ (∀ row ∈ (pushBody db env).2.likes,
        ∃ p, p ∈ (pushBody db env).1.posts ∧ p.id = row.post_id ∧ p.isSynced = true)
    ∧ (∀ row ∈ (pushBody db env).2.comments,
        ∃ p, p ∈ (pushBody db env).1.posts ∧ p.id = row.post_id ∧ p.isSynced = true)
    ∧ (∀ l ∈ db.likes, l.isSynced = false →
        (∀ p ∈ (pushBody db env).1.posts, p.id = l.postId → p.isSynced = false) →
        likeUpd (syncedIdsOf (pushBody db env).1.posts) env.likesDelOk env.likesInsOk l = l
        ∧ ∀ row ∈ (pushBody db env).2.likes, row.post_id ≠ l.postId)
    ∧ (∀ c ∈ db.comments, c.isSynced = false →
        (∀ p ∈ (pushBody db env).1.posts, p.id = c.postId → p.isSynced = false) →
        commentUpd (syncedIdsOf (pushBody db env).1.posts) env.commentsDelOk env.commentsInsOk c
            = c
        ∧ ∀ row ∈ (pushBody db env).2.comments, row.post_id ≠ c.postId) := by
  rcases hpp : postsPhase env.post db.posts with ⟨posts1, ppays⟩
  have h1 : (pushBody db env).1.posts = posts1 := by simp [pushBody, hpp]
  have hlr : (pushBody db env).2.likes = likeRows (syncedIdsOf posts1) db.likes := by
    simp [pushBody, hpp]
  have hcr : (pushBody db env).2.comments = commentRows (syncedIdsOf posts1) db.comments := by
    simp [pushBody, hpp]
  have hll : (pushBody db env).1.likes
      = db.likes.map (likeUpd (syncedIdsOf posts1) env.likesDelOk env.likesInsOk) := by
    simp [pushBody, hpp]
  refine ⟨by rw [hll, h1], ?_, ?_, ?_, ?_⟩
  · intro row hrow
    rw [hlr] at hrow
    have hc := likeRows_parent _ _ row hrow
    obtain ⟨p, hp, hsy, hpid⟩ := (mem_syncedIdsOf posts1 row.post_id).mp (List.elem_iff.mp hc)
    exact ⟨p, h1 ▸ hp, hpid, hsy⟩
  · intro row hrow
    rw [hcr] at hrow
    have hc := commentRows_parent _ _ row hrow
    obtain ⟨p, hp, hsy, hpid⟩ := (mem_syncedIdsOf posts1 row.post_id).mp (List.elem_iff.mp hc)
    exact ⟨p, h1 ▸ hp, hpid, hsy⟩
  · intro l hl hunsynced hpar
    rw [h1] at hpar
    have hnc : (syncedIdsOf posts1).contains l.postId = false := by
      cases hcon : (syncedIdsOf posts1).contains l.postId
      · rfl
      · obtain ⟨p, hp, hsy, hpid⟩ :=
          (mem_syncedIdsOf posts1 l.postId).mp (List.elem_iff.mp hcon)
        rw [hpar p hp hpid] at hsy
        cases hsy
    have hel : likeEligible (syncedIdsOf posts1) l = false := by
      unfold likeEligible
      rw [hnc, Bool.and_false]
    constructor
    · rw [h1]
      unfold likeUpd
      rw [hel]
      simp
    · intro row hrow heq
      rw [hlr] at hrow
      have hc := likeRows_parent _ _ row hrow
      rw [heq, hnc] at hc
      cases hc
  · intro c hcm hunsynced hpar
    rw [h1] at hpar
    have hnc : (syncedIdsOf posts1).contains c.postId = false := by
      cases hcon : (syncedIdsOf posts1).contains c.postId
      · rfl
      · obtain ⟨p, hp, hsy, hpid⟩ :=
          (mem_syncedIdsOf posts1 c.postId).mp (List.elem_iff.mp hcon)
        rw [hpar p hp hpid] at hsy
        cases hsy
    have hel : commentEligible (syncedIdsOf posts1) c = false := by
      unfold commentEligible
      rw [hnc, Bool.and_false]
    constructor
    · rw [h1]
      unfold commentUpd
      rw [hel]
      simp
    · intro row hrow heq
      rw [hcr] at hrow
      have hc := commentRows_parent _ _ row hrow
      rw [heq, hnc] at hc
      cases hc

/-- C1 witness post that syncs during the cycle's posts phase. -/

theorem push_parent_before_child_witness :
    (∃ p, p ∈ (pushBody w1DB w1Env).1.posts ∧ p.id = (mkLikeInsRow w1LikeA).post_id
        ∧ p.isSynced = true)
    ∧ likeUpd (syncedIdsOf (pushBody w1DB w1Env).1.posts) true true w1LikeB = w1LikeB
    ∧ (∀ row ∈ (pushBody w1DB w1Env).2.likes, row.post_id ≠ w1LikeB.postId) := by
  have h := push_parent_before_child w1DB w1Env
  refine ⟨h.2.1 (mkLikeInsRow w1LikeA) (by decide), ?_, ?_⟩
  · exact (h.2.2.2.1 w1LikeB (by decide) rfl (by decide)).1
  · exact (h.2.2.2.1 w1LikeB (by decide) rfl (by decide)).2
